import Mathlib

/-!
# Verification of `classification_sample_async.py`

A shallow embedding of the OpenVINO classification sample
(`classification_sample_async.py`) and proofs about it.

The script has two parts:

* `InferReqWrap`: a wrapper around one inference-engine request slot. It
  drives the request either synchronously (`execute "sync"`: a `for` loop of
  blocking `request.infer` calls) or asynchronously (`execute "async"`: one
  `request.async_infer` submission, after which the engine's completion
  callback re-submits until `num_iter` completions have occurred and then
  notifies the waiting caller through a condition variable).

* `main`: argument handling, the CPU layer-support check, the batched image
  loading / inference / JSON accumulation loop, and the FPS / latency
  statistics.

The embedding translates the Python statement by statement:

* the wrapper becomes a state record `InferReqWrap` plus pure transition
  functions that also emit an event trace (`Ev`) recording submissions, log
  lines, and the condition-variable notification;
* the opaque inference engine is a parameter: the statuses it reports to the
  callback (`status : Nat → Int`) and the rows of the output blob it produces
  per batch (`engineOut : Nat → List (List α)`);
* machine floats in the timing code are modelled as exact rationals;
* Python control-flow failures (`sys.exit`, a failed `assert`, an uncaught
  `IndexError` / `ValueError` / `ZeroDivisionError`) become constructors of
  an `Outcome` type; CPython maps an uncaught exception to process exit
  code 1 and `sys.exit(main() or 0)` maps a normal return to exit code 0.
-/

namespace ClassificationSample

/-- State of the Python class `InferReqWrap` (`classification_sample_async.py`,
lines 29-36).  `ι` is the type of the input payload passed to
`request.infer` / `request.async_infer`.  The field `input` models the
attribute `self.input` (absent until `execute "async"` sets it), and
`notified` models the condition variable `self.cv` having been signalled. -/
structure InferReqWrap (ι : Type) where
  id : Nat
  num_iter : Nat
  cur_iter : Nat
  input : Option ι
  notified : Bool
  deriving Repr, DecidableEq

/-- `InferReqWrap.__init__(request, id, num_iter)` (lines 30-36): stores the
id and iteration budget, zeroes the completion counter and registers the
callback with userdata `self.id`.  The opaque `request` handle itself is not
part of the model; its behaviour enters through the engine parameters. -/
def initWrap (ι : Type) (id num_iter : Nat) : InferReqWrap ι :=
  { id := id, num_iter := num_iter, cur_iter := 0, input := none,
    notified := false }

/-- Observable events of one run of the wrapper: request submissions
(separated by submitting site), the `log.error` / `log.info` calls, and the
condition-variable notification. -/
inductive Ev (ι : Type) where
  /-- `request.async_infer(input_data)` executed by `execute` itself (line 60). -/
  | asyncInferExec (x : ι)
  /-- `request.async_infer(self.input)` executed by the callback (line 48). -/
  | asyncInferCb (x : Option ι)
  /-- blocking `request.infer(input_data)` in the sync loop (line 69). -/
  | syncInfer (x : ι)
  /-- `log.error("Request ID {} does not correspond to user data {}")` (line 40). -/
  | errIdMismatch (id userdata : Nat)
  /-- `log.error("Request {} failed with status code {}")` (line 42). -/
  | errStatus (id : Nat) (code : Int)
  /-- `log.info("Completed {} Async request execution")` (line 44). -/
  | infoCompletedAsync (n : Nat)
  /-- `log.info("Completed {} Sync request execution")` (line 70). -/
  | infoCompletedSync (n : Nat)
  /-- `self.cv.notify()` (line 52). -/
  | notify
  deriving Repr, DecidableEq

namespace Ev

/-- Recognises a callback invocation: each call of `callback` logs exactly one
`Completed ... Async` line, so counting these events counts invocations. -/
def isCompletedAsync : Ev ι → Bool
  | .infoCompletedAsync _ => true
  | _ => false

/-- Recognises an asynchronous re-submission performed by the callback. -/
def isAsyncInferCb : Ev ι → Bool
  | .asyncInferCb _ => true
  | _ => false

/-- Recognises the initial asynchronous submission performed by `execute`. -/
def isAsyncInferExec : Ev ι → Bool
  | .asyncInferExec _ => true
  | _ => false

/-- Recognises a blocking synchronous submission. -/
def isSyncInfer : Ev ι → Bool
  | .syncInfer _ => true
  | _ => false

/-- Recognises either of the two `log.error` calls of the callback. -/
def isErr : Ev ι → Bool
  | .errIdMismatch _ _ => true
  | .errStatus _ _ => true
  | _ => false

/-- Recognises the condition-variable notification. -/
def isNotify : Ev ι → Bool
  | .notify => true
  | _ => false

end Ev

/-- `InferReqWrap.callback(statusCode, userdata)` (lines 38-53), translated
statement by statement: the id check, the status check, `self.cur_iter += 1`,
the completion log, and then either the re-submission of `self.input` (when
`cur_iter < num_iter`) or the notification of the waiting caller.  Returns
the updated state together with the events emitted during this invocation. -/
def InferReqWrap.callback (w : InferReqWrap ι) (statusCode : Int)
    (userdata : Nat) : InferReqWrap ι × List (Ev ι) :=
  let errs : List (Ev ι) :=
    if userdata ≠ w.id then [.errIdMismatch w.id userdata]
    else if statusCode ≠ 0 then [.errStatus w.id statusCode]
    else []
  let w1 : InferReqWrap ι := { w with cur_iter := w.cur_iter + 1 }
  if w1.cur_iter < w1.num_iter then
    (w1, errs ++ [.infoCompletedAsync w1.cur_iter, .asyncInferCb w1.input])
  else
    ({ w1 with notified := true },
     errs ++ [.infoCompletedAsync w1.cur_iter, .notify])

/-- The engine's side of the asynchronous handshake: each outstanding
submission is eventually completed, upon which the engine invokes the
registered callback with the registered userdata (`self.id`, line 36) and an
engine-chosen status code `status k` for the `k`-th completion.  The loop
stops once the callback has notified the caller (no submission is then
outstanding).  `fuel` bounds how many completions the engine delivers; an
engine that hangs corresponds to running out of fuel. -/
def engineRun (w : InferReqWrap ι) (status : Nat → Int) (k : Nat)
    (fuel : Nat) : InferReqWrap ι × List (Ev ι) :=
  match fuel with
  | 0 => (w, [])
  | fuel + 1 =>
    let r := w.callback (status k) w.id
    if r.1.notified then r
    else
      let r2 := engineRun r.1 status (k + 1) fuel
      (r2.1, r.2 ++ r2.2)

/-- The `mode == "async"` branch of `execute` (lines 56-63): store the input
in `self.input`, submit once with `request.async_infer`, then block on the
condition variable until the callback signals.  The result is `none` while
the caller is still blocked (the engine delivered fewer completions than
needed), and `some (final state, trace)` once the wait returns. -/
def InferReqWrap.executeAsync (w : InferReqWrap ι) (input_data : ι)
    (status : Nat → Int) (fuel : Nat) :
    Option (InferReqWrap ι × List (Ev ι)) :=
  let w0 : InferReqWrap ι := { w with input := some input_data }
  let r := engineRun w0 status 0 fuel
  if r.1.notified then some (r.1, .asyncInferExec input_data :: r.2) else none

/-- The body of `for self.cur_iter in range(self.num_iter): ...` (lines
66-70).  Python's `for` assigns the loop target — here the *attribute*
`self.cur_iter` — before each iteration body; the body is a blocking
`request.infer` followed by the completion log. -/
def syncLoop (w : InferReqWrap ι) (input_data : ι) :
    List Nat → InferReqWrap ι × List (Ev ι)
  | [] => (w, [])
  | i :: rest =>
    let w1 : InferReqWrap ι := { w with cur_iter := i }
    let r := syncLoop w1 input_data rest
    (r.1, .syncInfer input_data :: .infoCompletedSync (i + 1) :: r.2)

/-- The `mode == "sync"` branch of `execute` (lines 64-70). -/
def InferReqWrap.executeSync (w : InferReqWrap ι) (input_data : ι) :
    InferReqWrap ι × List (Ev ι) :=
  syncLoop w input_data (List.range w.num_iter)

/-- `InferReqWrap.execute(mode, input_data)` (lines 55-73): dispatch on the
mode string; any mode other than `"async"` and `"sync"` logs an error and
calls `sys.exit(1)` (modelled as `Except.error 1`).  The outer `Option` is
`none` exactly when the async branch is still blocked on the condition
variable. -/
def InferReqWrap.execute (w : InferReqWrap ι) (mode : String) (input_data : ι)
    (status : Nat → Int) (fuel : Nat) :
    Option (Except Nat (InferReqWrap ι × List (Ev ι))) :=
  if mode = "async" then (w.executeAsync input_data status fuel).map Except.ok
  else if mode = "sync" then some (.ok (w.executeSync input_data))
  else some (.error 1)

/-! ## The `main` function (lines 101-228)

The inference engine, the image codecs and the clock are opaque external
libraries; they enter the model as parameters of `Env`.  Everything the
script itself computes from their answers is translated directly. -/

/-- A decoded image, height × width × channels. -/
abbrev Image (α : Type) := List (List (List α))

/-- The value of `np.array(imageio.mimread(path))` (line 158-160): a stack of
frames.  A GIF decoded to grayscale frames gives a 3-dimensional array
(frames × height × width); one decoded to colour frames gives a
4-dimensional array (frames × height × width × channels). -/
inductive GifFrames (α : Type) where
  | gray (frames : List (List (List α)))
  | color (frames : List (List (List (List α))))
  deriving Repr, DecidableEq

/-- Lines 160-163: `image = np.array(tmp)`; if the array is 3-dimensional
(grayscale frames) it is first stacked to three channels with
`np.stack((image,)*3, axis=-1)`; then `image = image[0][:,:,0:3]` keeps the
first frame and its first three channels.  `none` models the `IndexError`
raised by `image[0]` when the decoder returned no frames. -/
def gifFirstFrame : GifFrames α → Option (Image α)
  | .gray frames =>
    ((frames.map (fun f => f.map (fun row => row.map (fun x => [x, x, x])))).head?).map
      (fun f => f.map (fun row => row.map (fun px => px.take 3)))
  | .color frames =>
    frames.head?.map (fun f => f.map (fun row => row.map (fun px => px.take 3)))

/-- Lines 154-163: `cv2.imread`, the `imageio.mimread` fallback when it
returns `None`, the `assert tmp is not None` aborting when both decoders
fail, and the first-frame / three-channel extraction.  The subsequent
resize to `(h, w)` and the HWC→CHW transpose (lines 165-169) are not
modelled: their result is only ever consumed by the opaque engine. -/
def decodeOne (primary : Option (Image α)) (fallback : Option (GifFrames α)) :
    Except String (Image α) :=
  match primary with
  | some image => .ok image
  | none =>
    match fallback with
    | none => .error "AssertionError: Neither cv2 nor imageio can read this file"
    | some tmp =>
      match gifFirstFrame tmp with
      | none => .error "IndexError: index 0 is out of bounds"
      | some image => .ok image

/-- Python dict assignment `d[k] = v`: an existing key keeps its position and
gets the new value, a new key is appended.  `output_json` (line 144) is such
a dict with string keys. -/
def dictInsert (d : List (String × β)) (k : String) (v : β) :
    List (String × β) :=
  if d.any (fun kv => kv.1 == k) then
    d.map (fun kv => if kv.1 == k then (k, v) else kv)
  else d ++ [(k, v)]

/-- Python's `str.split(sep)` for a one-character separator, as structural
recursion over the character list (`"a/b".split('/') = ["a","b"]`,
`"".split('/') = [""]`, `"/a".split('/') = ["","a"]`). -/
def splitOnCharList (sep : Char) : List Char → List (List Char)
  | [] => [[]]
  | c :: rest =>
    match splitOnCharList sep rest with
    | [] => [[c]]
    | g :: gs => if c = sep then [] :: g :: gs else (c :: g) :: gs

/-- `path.split('/')[-1]` (line 203): the base filename of an input path. -/
def pathBase (p : String) : String :=
  ((splitOnCharList '/' p.data).map List.asString).getLastD ""

/-- Whether `pat` occurs at the start of `s`. -/
def startsWithChars : List Char → List Char → Bool
  | [], _ => true
  | _ :: _, [] => false
  | p :: ps, c :: cs => p = c && startsWithChars ps cs

/-- Whether `pat` occurs anywhere in `s`. -/
def containsSeq : List Char → List Char → Bool
  | pat, [] => startsWithChars pat []
  | pat, c :: rest => startsWithChars pat (c :: rest) || containsSeq pat rest

/-- Python's substring test `sub in s`, used as `"CPU" in args.device`
(line 116). -/
def strContains (s sub : String) : Bool := containsSeq sub.data s.data

/-- One line of the labels file, `x.split(sep=' ', maxsplit=1)[-1].strip()`
(line 195). -/
def parseLabelLine (x : String) : String :=
  match x.splitOn " " with
  | [] => ""
  | [w] => w.trim
  | _ :: rest => (String.intercalate " " rest).trim

/-- Lines 194-195: the labels file parsed into `labels_map`. -/
def parseLabels (lines : List String) : List String := lines.map parseLabelLine

/-- The number of iterations of `range(0, n, batch)` for `batch > 0`,
i.e. the number of batches of the loop at line 147. -/
def numBatches (n batch : Nat) : Nat := (n + batch - 1) / batch

/-- The parameters of one run of `main`, covering both the parsed
command-line arguments and the answers of the opaque external libraries.

* `device`, `inputs`, `batch`, `labels`, `numberTop` are the parsed
  arguments (`argparse` guarantees `inputs` is non-empty and `batch` is an
  integer; a non-positive batch is representable only as `batch = 0` here).
* `netLayers` is `net.layers.keys()`, `queryCPU` the supported-layer set
  `ie.query_network(net, "CPU")`, `netInputsCount` is
  `len(net.inputs.keys())`.
* `cv2Read` and `mimread` are the two image decoders.
* `engineOut b` is the list of per-image rows of the output blob
  `infer_request.outputs[out_blob]` after batch `b`; `strFn` is Python's
  `str` on the scalar type `α` of the output entries.
* `loadStart`, `infStart`, `infEnd` are the three `time()` samples taken in
  batch `b` (lines 152, 180, 186), as exact rationals. -/
structure Env (α : Type) where
  device : String
  netLayers : List String
  queryCPU : List String
  netInputsCount : Nat
  inputs : List String
  batch : Nat
  cv2Read : String → Option (Image α)
  mimread : String → Option (GifFrames α)
  engineOut : Nat → List (List α)
  strFn : α → String
  loadStart : Nat → ℚ
  infStart : Nat → ℚ
  infEnd : Nat → ℚ
  labels : Option (List String)
  numberTop : Nat

/-- How a run of the script terminates.  `sysExit c` is an explicit
`sys.exit(c)`.  `uncaught msg` is an uncaught exception (a failed `assert`,
an `IndexError`, `ValueError` or `ZeroDivisionError`); CPython terminates
with exit code 1 in that case.  `done` is a normal return carrying the
accumulated `output_json`, the two timing histories and the two printed
averages; `sys.exit(main() or 0)` (line 232) then exits with code 0. -/
inductive Outcome where
  | sysExit (code : Nat)
  | uncaught (msg : String)
  | done (json : List (String × List String)) (fpsHist latencyHist : List ℚ)
      (avgFPS avgLatencyMs : ℚ)
  deriving Repr, DecidableEq

/-- The process exit code produced by each outcome. -/
def exitCode : Outcome → Nat
  | .sysExit c => c
  | .uncaught _ => 1
  | .done _ _ _ _ _ => 0

/-- The JSON object written to the output file by a normal run (`none` when
the run died early). -/
def outcomeJson : Outcome → Option (List (String × List String))
  | .done json _ _ _ _ => some json
  | _ => none

/-- The image-loading loop of one batch (lines 153-169): decode every path of
the batch subset, aborting on the first failure.  The decoded pixels are
dropped here because they flow only into the opaque engine. -/
def loadImages (env : Env α) : List String → Except String Unit
  | [] => .ok ()
  | p :: rest =>
    match decodeOne (env.cv2Read p) (env.mimread p) with
    | .error e => .error e
    | .ok _ => loadImages env rest

/-- The output-accumulation loop `for i, probs in enumerate(res)` (lines
201-203), fed with `res.enum`.  Each row is 1-dimensional, so
`np.squeeze(probs)` (line 202) is the identity; the stored value is
`[str(x) for x in probs[1:]]` under the key `input_subset[i].split('/')[-1]`.
Indexing `input_subset[i]` past the end raises `IndexError`. -/
def storeRows (strFn : α → String) (input_subset : List String) :
    List (Nat × List α) → List (String × List String) →
    Except String (List (String × List String))
  | [], output_json => .ok output_json
  | (i, probs) :: rest, output_json =>
    match input_subset.get? i with
    | none => .error "IndexError: list index out of range"
    | some path =>
      storeRows strFn input_subset rest
        (dictInsert output_json (pathBase path)
          ((probs.drop 1).map strFn))

/-- The batch loop (lines 147-203) over the list of batch ordinals
(`b`-th batch starts at `b * batch`).  Per batch: slice the subset, load its
images, run one blocking inference through `InferReqWrap` (`num_iter = 1`,
`execute "sync"`), append the timing samples, parse the labels file, and
store the output rows. -/
def runBatches (env : Env α) :
    List Nat → List (String × List String) → List ℚ → List ℚ →
    Except String (List (String × List String) × List ℚ × List ℚ)
  | [], output_json, fps_hist, latency_hist =>
    .ok (output_json, fps_hist, latency_hist)
  | b :: bs, output_json, fps_hist, latency_hist =>
    let start := b * env.batch
    let input_subset := (env.inputs.drop start).take env.batch
    match loadImages env input_subset with
    | .error e => .error e
    | .ok _ =>
      -- lines 172-181: request_wrap = InferReqWrap(infer_request, 0, 1);
      -- request_wrap.execute("sync", {input_blob: images}).  The submitted
      -- payload does not influence anything observable here, so it is ().
      let request_run := (initWrap Unit 0 1).execute "sync" () (fun _ => 0) 0
      -- lines 186-190: inf_time = inf_end - inf_start;
      -- latency = inf_end - load_img_start
      let fps_hist' := fps_hist ++ [1 / (env.infEnd b - env.infStart b)]
      let latency_hist' := latency_hist ++ [env.infEnd b - env.loadStart b]
      -- lines 193-197: labels_map is built (when a labels file was given)
      -- but never used afterwards: the printing block that used it is
      -- commented out in the source.
      let labels_map := env.labels.map parseLabels
      match storeRows env.strFn input_subset ((env.engineOut b).enum)
          output_json with
      | .error e => .error e
      | .ok json' => runBatches env bs json' fps_hist' latency_hist'

/-- `main()` (lines 101-228): the CPU layer-support check with its
`sys.exit(1)`, the single-input assertion, the batch loop, and the two
printed averages.  Model loading, plugin setup and file writing are opaque
I/O with no observable effect on the claims. -/
def mainRun (env : Env α) : Outcome :=
  -- lines 116-124
  let not_supported_layers :=
    env.netLayers.filter (fun l => !(env.queryCPU.contains l))
  if strContains env.device "CPU" ∧ not_supported_layers ≠ [] then
    .sysExit 1
  else if env.netInputsCount ≠ 1 then
    -- line 125: assert len(net.inputs.keys()) == 1
    .uncaught "AssertionError: Sample supports only single input topologies"
  else if env.batch = 0 then
    -- line 147: range(0, len(args.input), 0) raises ValueError
    .uncaught "ValueError: range() arg 3 must not be zero"
  else
    match runBatches env
        (List.range (numBatches env.inputs.length env.batch)) [] [] [] with
    | .error e => .uncaught e
    | .ok (output_json, fps_hist, latency_hist) =>
      if fps_hist.length = 0 then
        -- line 227: sum(fps_hist) / len(fps_hist) with an empty history
        .uncaught "ZeroDivisionError: division by zero"
      else
        -- lines 227-228
        .done output_json fps_hist latency_hist
          (fps_hist.sum / (fps_hist.length : ℚ))
          (latency_hist.sum / (latency_hist.length : ℚ) * 1000)

/-- The arithmetic mean of a list of rationals, the reference value for the
two printed averages. -/
def arithMean (l : List ℚ) : ℚ := l.sum / (l.length : ℚ)

/-- The first of the two situations named by the exit-code claim: the target
device selects the CPU path and some network layer is unsupported
(lines 116-124). -/
def unsupportedLayerSit (env : Env α) : Bool :=
  strContains env.device "CPU" &&
    !(env.netLayers.filter (fun l => !(env.queryCPU.contains l))).isEmpty

/-- The conditions under which a run reaches the final statistics normally:
no unsupported layers, a single-input network, every input decodable, and
the engine never returning more output rows than the batch has images. -/
def successAssumptions (env : Env α) : Prop :=
  unsupportedLayerSit env = false ∧
  env.netInputsCount = 1 ∧
  (∀ p ∈ env.inputs, ∃ img, decodeOne (env.cv2Read p) (env.mimread p) = .ok img) ∧
  (∀ b, b < numBatches env.inputs.length env.batch →
    (env.engineOut b).length ≤
      ((env.inputs.drop (b * env.batch)).take env.batch).length)

/-! ## Concrete environments used by the witnesses and counterexamples -/

/-- A fully successful run: three images (the third a GIF that only the
fallback decoder reads), batch size 2, a 3-class model output per image. -/
def envOk : Env Nat where
  device := "CPU"
  netLayers := ["conv1"]
  queryCPU := ["conv1"]
  netInputsCount := 1
  inputs := ["data/cat.jpg", "data/dog.jpg", "fish.gif"]
  batch := 2
  cv2Read := fun p => if p = "fish.gif" then none else some [[[1, 2, 3]]]
  mimread := fun p =>
    if p = "fish.gif" then some (.color [[[[9, 8, 7, 6]]]]) else none
  engineOut := fun b =>
    if b = 0 then [[10, 1, 2], [20, 3, 4]]
    else if b = 1 then [[30, 5, 6]] else []
  strFn := toString
  loadStart := fun _ => 0
  infStart := fun _ => 1
  infEnd := fun _ => 3
  labels := none
  numberTop := 10

/-- A minimal successful run for the timing claims: one image, batch 1, one
engine row, and unit-length timings. -/
def envTime : Env Nat where
  device := "CPU"
  netLayers := ["conv1"]
  queryCPU := ["conv1"]
  netInputsCount := 1
  inputs := ["x.png"]
  batch := 1
  cv2Read := fun _ => some [[[1, 2, 3]]]
  mimread := fun _ => none
  engineOut := fun _ => [[1, 2]]
  strFn := toString
  loadStart := fun _ => 0
  infStart := fun _ => 0
  infEnd := fun _ => 1
  labels := none
  numberTop := 10

/-- A run whose only problem is a single image that neither decoder can
read: no unsupported layers, a valid mode, yet the process dies with an
`AssertionError` and exit code 1. -/
def envBadImage : Env Nat where
  device := "CPU"
  netLayers := ["conv1"]
  queryCPU := ["conv1"]
  netInputsCount := 1
  inputs := ["broken.img"]
  batch := 1
  cv2Read := fun _ => none
  mimread := fun _ => none
  engineOut := fun _ => []
  strFn := toString
  loadStart := fun _ => 0
  infStart := fun _ => 1
  infEnd := fun _ => 3
  labels := none
  numberTop := 10

/-! ## Lemmas about the asynchronous wrapper -/

/-- `callback` specialised to the userdata the engine actually passes (the
registered `self.id`), with both branches written out. -/
lemma callback_self (w : InferReqWrap ι) (st : Int) :
    w.callback st w.id =
      (if w.cur_iter + 1 < w.num_iter then
        ({ w with cur_iter := w.cur_iter + 1 },
         (if st ≠ 0 then [Ev.errStatus w.id st] else []) ++
           [.infoCompletedAsync (w.cur_iter + 1), .asyncInferCb w.input])
      else
        ({ w with cur_iter := w.cur_iter + 1, notified := true },
         (if st ≠ 0 then [Ev.errStatus w.id st] else []) ++
           [.infoCompletedAsync (w.cur_iter + 1), .notify])) := by
  simp [InferReqWrap.callback]

/-- With fewer completions delivered than iterations remaining, the caller is
never notified. -/
lemma engineRun_not_notified (fuel : Nat) :
    ∀ (w : InferReqWrap ι) (status : Nat → Int) (k : Nat),
      w.notified = false → fuel + w.cur_iter < w.num_iter →
      (engineRun w status k fuel).1.notified = false := by
  induction fuel with
  | zero =>
    intro w status k hn _
    simpa [engineRun] using hn
  | succ fuel ih =>
    intro w status k hn hlt
    have h1 : w.cur_iter + 1 < w.num_iter := by omega
    simp only [engineRun, callback_self, if_pos h1, hn, Bool.false_eq_true,
      if_false]
    exact ih _ status (k + 1) (by simp [hn]) (by simp; omega)

/-- With enough fuel, the engine drives the wrapper to `cur_iter = num_iter`
and sets the notification flag. -/
lemma engineRun_state (fuel : Nat) :
    ∀ (w : InferReqWrap ι) (status : Nat → Int) (k : Nat),
      w.notified = false →
      w.cur_iter < w.num_iter → w.num_iter ≤ w.cur_iter + fuel →
      (engineRun w status k fuel).1 =
        { w with cur_iter := w.num_iter, notified := true } := by
  induction fuel with
  | zero => intro w status k hn h1 h2; omega
  | succ fuel ih =>
    intro w status k hn h1 h2
    by_cases hlt : w.cur_iter + 1 < w.num_iter
    · simp only [engineRun, callback_self, if_pos hlt]
      simp only [if_neg (by simp [hn] : ¬({ w with cur_iter := w.cur_iter + 1} : InferReqWrap ι).notified = true)]
      rw [ih _ status (k + 1) (by simp [hn]) (by simpa using hlt) (by simp; omega)]
    · have heq : w.num_iter = w.cur_iter + 1 := by omega
      simp only [engineRun, callback_self, if_neg hlt]
      simp [heq]

/-- One unfolding step of the engine loop. -/
lemma engineRun_succ (w : InferReqWrap ι) (status : Nat → Int) (k fuel : Nat) :
    engineRun w status k (fuel + 1) =
      (if (w.callback (status k) w.id).1.notified then
        w.callback (status k) w.id
      else
        ((engineRun (w.callback (status k) w.id).1 status (k + 1) fuel).1,
         (w.callback (status k) w.id).2 ++
           (engineRun (w.callback (status k) w.id).1 status (k + 1) fuel).2)) :=
  rfl

/-- One callback invocation only ever touches `cur_iter` and `notified`. -/
lemma callback_preserve (w : InferReqWrap ι) (st : Int) (u : Nat) :
    (w.callback st u).1.id = w.id ∧
    (w.callback st u).1.num_iter = w.num_iter ∧
    (w.callback st u).1.input = w.input ∧
    (w.callback st u).1.cur_iter = w.cur_iter + 1 := by
  simp only [InferReqWrap.callback]
  split_ifs <;> simp

/-- The notification flag after one callback invocation: set exactly when the
incremented counter has reached the target (assuming it was clear before). -/
lemma callback_notified (w : InferReqWrap ι) (st : Int) (u : Nat)
    (hn : w.notified = false) :
    (w.callback st u).1.notified =
      decide (¬ w.cur_iter + 1 < w.num_iter) := by
  simp only [InferReqWrap.callback]
  split_ifs with h <;> simp [hn, h]

/-- Event counts of a single callback invocation (with matching userdata). -/
lemma callback_self_counts (w : InferReqWrap ι) (st : Int) :
    (w.callback st w.id).2.countP Ev.isCompletedAsync = 1 ∧
    (w.callback st w.id).2.countP Ev.isAsyncInferCb =
      (if w.cur_iter + 1 < w.num_iter then 1 else 0) ∧
    (w.callback st w.id).2.countP Ev.isAsyncInferExec = 0 ∧
    (w.callback st w.id).2.countP Ev.isNotify =
      (if w.cur_iter + 1 < w.num_iter then 0 else 1) ∧
    (w.callback st w.id).2.countP Ev.isSyncInfer = 0 := by
  rw [callback_self]
  split_ifs <;>
    simp_all [List.countP_append, List.countP_cons, Ev.isCompletedAsync,
      Ev.isAsyncInferCb, Ev.isAsyncInferExec, Ev.isNotify, Ev.isSyncInfer,
      Ev.isErr]

/-- A re-submission event emitted by one callback invocation carries the
stored input. -/
lemma callback_cb_event (w : InferReqWrap ι) (st : Int) (u : Nat) :
    ∀ e ∈ (w.callback st u).2, e.isAsyncInferCb = true →
      e = .asyncInferCb w.input := by
  intro e he hcb
  simp only [InferReqWrap.callback] at he
  split_ifs at he <;> cases e <;> simp_all [Ev.isAsyncInferCb]

/-- Event counts of a completed engine run: one callback invocation per
remaining iteration, one re-submission per invocation except the last, no
synchronous or caller-side submissions, and exactly one notification. -/
lemma engineRun_counts (fuel : Nat) :
    ∀ (w : InferReqWrap ι) (status : Nat → Int) (k : Nat),
      w.notified = false →
      w.cur_iter < w.num_iter → w.num_iter ≤ w.cur_iter + fuel →
      (engineRun w status k fuel).2.countP Ev.isCompletedAsync =
          w.num_iter - w.cur_iter ∧
      (engineRun w status k fuel).2.countP Ev.isAsyncInferCb =
          w.num_iter - w.cur_iter - 1 ∧
      (engineRun w status k fuel).2.countP Ev.isAsyncInferExec = 0 ∧
      (engineRun w status k fuel).2.countP Ev.isNotify = 1 ∧
      (engineRun w status k fuel).2.countP Ev.isSyncInfer = 0 := by
  induction fuel with
  | zero => intro w status k hn h1 h2; omega
  | succ fuel ih =>
    intro w status k hn h1 h2
    obtain ⟨d1, d2, d3, d4, d5⟩ := callback_self_counts w (status k)
    obtain ⟨p1, p2, p3, p4⟩ := callback_preserve w (status k) w.id
    rw [engineRun_succ]
    by_cases hlt : w.cur_iter + 1 < w.num_iter
    · have hnot : (w.callback (status k) w.id).1.notified = false := by
        rw [callback_notified w _ _ hn]; simpa using hlt
      rw [if_neg (by simp [hnot])]
      obtain ⟨c1, c2, c3, c4, c5⟩ :=
        ih (w.callback (status k) w.id).1 status (k + 1) hnot
          (by rw [p2, p4]; omega) (by rw [p2, p4]; omega)
      rw [p2, p4] at c1 c2
      rw [if_pos hlt] at d2 d4
      simp only [List.countP_append, c1, c2, c3, c4, c5, d1, d2, d3, d4, d5]
      exact ⟨by omega, by omega, trivial, trivial, trivial⟩
    · have hnot : (w.callback (status k) w.id).1.notified = true := by
        rw [callback_notified w _ _ hn]; simpa using hlt
      rw [if_pos hnot]
      rw [if_neg hlt] at d2 d4
      have heq : w.num_iter = w.cur_iter + 1 := by omega
      refine ⟨?_, ?_, d3, d4, d5⟩ <;> omega

/-- Every re-submission the callback performs during an engine run carries
the stored input. -/
lemma engineRun_cb_events (fuel : Nat) :
    ∀ (w : InferReqWrap ι) (status : Nat → Int) (k : Nat)
      (e : Ev ι), e ∈ (engineRun w status k fuel).2 →
      e.isAsyncInferCb = true → e = .asyncInferCb w.input := by
  induction fuel with
  | zero => intro w status k e he _; simp [engineRun] at he
  | succ fuel ih =>
    intro w status k e he hcb
    rw [engineRun_succ] at he
    by_cases hnot : (w.callback (status k) w.id).1.notified
    · rw [if_pos hnot] at he
      exact callback_cb_event w _ _ e he hcb
    · rw [if_neg hnot] at he
      rcases List.mem_append.1 he with h | h
      · exact callback_cb_event w _ _ e h hcb
      · have := ih (w.callback (status k) w.id).1 status (k + 1) e h hcb
        rwa [(callback_preserve w (status k) w.id).2.2.1] at this

/-- The completion counter always advances by exactly the number of callback
invocations of the run. -/
lemma engineRun_cur_iter (fuel : Nat) :
    ∀ (w : InferReqWrap ι) (status : Nat → Int) (k : Nat),
      (engineRun w status k fuel).1.cur_iter =
        w.cur_iter + (engineRun w status k fuel).2.countP Ev.isCompletedAsync := by
  induction fuel with
  | zero => intro w status k; simp [engineRun]
  | succ fuel ih =>
    intro w status k
    obtain ⟨d1, _, _, _, _⟩ := callback_self_counts w (status k)
    obtain ⟨_, _, _, p4⟩ := callback_preserve w (status k) w.id
    rw [engineRun_succ]
    by_cases hnot : (w.callback (status k) w.id).1.notified
    · rw [if_pos hnot, d1, p4]
    · rw [if_neg hnot]
      simp only [List.countP_append, d1,
        ih (w.callback (status k) w.id).1 status (k + 1), p4]
      omega

/-- State and trace of the synchronous loop over an arbitrary index list:
the loop variable `self.cur_iter` ends at the last index (or keeps its old
value for an empty range), and the trace strictly alternates one blocking
submission with its completion log. -/
lemma syncLoop_spec (l : List Nat) :
    ∀ (w : InferReqWrap ι) (x : ι),
      (syncLoop w x l).1 = { w with cur_iter := l.getLastD w.cur_iter } ∧
      (syncLoop w x l).2 =
        l.flatMap (fun i => [Ev.syncInfer x, Ev.infoCompletedSync (i + 1)]) := by
  induction l with
  | nil => intro w x; exact ⟨rfl, rfl⟩
  | cons i rest ih =>
    intro w x
    obtain ⟨ihs, iht⟩ := ih ({ w with cur_iter := i}) x
    refine ⟨?_, ?_⟩
    · simp only [syncLoop, ihs, List.getLastD_cons]
    · simp only [syncLoop, iht, List.flatMap_cons]
      rfl

/-- Event counts of the synchronous trace: one submission per index and no
callback-side events at all. -/
lemma syncTrace_counts (x : ι) (l : List Nat) :
    (l.flatMap (fun i => [Ev.syncInfer x, Ev.infoCompletedSync (i + 1)])).countP
        Ev.isSyncInfer = l.length ∧
    (l.flatMap (fun i => [Ev.syncInfer x, Ev.infoCompletedSync (i + 1)])).countP
        Ev.isCompletedAsync = 0 ∧
    (l.flatMap (fun i => [Ev.syncInfer x, Ev.infoCompletedSync (i + 1)])).countP
        Ev.isAsyncInferExec = 0 ∧
    (l.flatMap (fun i => [Ev.syncInfer x, Ev.infoCompletedSync (i + 1)])).countP
        Ev.isAsyncInferCb = 0 ∧
    (l.flatMap (fun i => [Ev.syncInfer x, Ev.infoCompletedSync (i + 1)])).countP
        Ev.isNotify = 0 := by
  induction l with
  | nil => simp
  | cons i rest ih =>
    obtain ⟨i1, i2, i3, i4, i5⟩ := ih
    refine ⟨?_, ?_, ?_, ?_, ?_⟩ <;>
      simp [List.flatMap_cons, List.countP_append, List.countP_cons, i1, i2,
        i3, i4, i5, Ev.isSyncInfer, Ev.isCompletedAsync, Ev.isAsyncInferExec,
        Ev.isAsyncInferCb, Ev.isNotify]

/-- The last index of `range(N)`. -/
lemma range_getLastD (N d : Nat) :
    (List.range N).getLastD d = if N = 0 then d else N - 1 := by
  cases N with
  | zero => rfl
  | succ n => simp [List.range_succ, List.getLastD_concat]

/-- **C1.** In asynchronous mode with `num_iter = N ≥ 1`, `execute "async"`
submits the stored input exactly once itself, blocks while fewer than `N`
completions have been delivered, and returns exactly after the `N`-th
completion-callback invocation; the `N - 1` further submissions are all
performed by the callback and all carry the stored input, and the caller is
woken by the single condition-variable notification. -/
theorem executeAsync_returns_after_num_iter_completions
    (ι : Type) (id N : Nat) (x : ι) (status : Nat → Int) (hN : 1 ≤ N) :
    (∀ fuel, fuel < N →
      (initWrap ι id N).executeAsync x status fuel = none) ∧
    (∀ fuel, N ≤ fuel → ∃ w tr,
      (initWrap ι id N).executeAsync x status fuel = some (w, tr) ∧
      w.notified = true ∧
      tr.countP Ev.isCompletedAsync = N ∧
      tr.countP Ev.isAsyncInferExec = 1 ∧
      tr.countP Ev.isAsyncInferCb = N - 1 ∧
      tr.countP Ev.isNotify = 1 ∧
      (∀ e ∈ tr, e.isAsyncInferCb = true → e = .asyncInferCb (some x))) := by
  have hrw : ∀ fuel, (initWrap ι id N).executeAsync x status fuel =
      (if (engineRun (⟨id, N, 0, some x, false⟩ : InferReqWrap ι) status 0
            fuel).1.notified then
        some ((engineRun (⟨id, N, 0, some x, false⟩ : InferReqWrap ι) status 0
            fuel).1,
          .asyncInferExec x ::
            (engineRun (⟨id, N, 0, some x, false⟩ : InferReqWrap ι) status 0
              fuel).2)
      else none) := fun _ => rfl
  constructor
  · intro fuel hf
    have h := engineRun_not_notified fuel
      (⟨id, N, 0, some x, false⟩ : InferReqWrap ι) status 0 rfl (by simp; omega)
    rw [hrw, if_neg (by simp [h])]
  · intro fuel hf
    have hst := engineRun_state fuel
      (⟨id, N, 0, some x, false⟩ : InferReqWrap ι) status 0 rfl
      (by simp; omega) (by simp; omega)
    have hno : (engineRun (⟨id, N, 0, some x, false⟩ : InferReqWrap ι) status 0
        fuel).1.notified = true := by rw [hst]
    obtain ⟨c1, c2, c3, c4, c5⟩ := engineRun_counts fuel
      (⟨id, N, 0, some x, false⟩ : InferReqWrap ι) status 0 rfl
      (by simp; omega) (by simp; omega)
    refine ⟨(engineRun (⟨id, N, 0, some x, false⟩ : InferReqWrap ι) status 0
        fuel).1,
      .asyncInferExec x ::
        (engineRun (⟨id, N, 0, some x, false⟩ : InferReqWrap ι) status 0
          fuel).2, ?_, ?_, ?_, ?_, ?_, ?_, ?_⟩
    · rw [hrw, if_pos hno]
    · exact hno
    · simpa [List.countP_cons, Ev.isCompletedAsync] using c1
    · simpa [List.countP_cons, Ev.isAsyncInferExec] using c3
    · simpa [List.countP_cons, Ev.isAsyncInferCb] using c2
    · simpa [List.countP_cons, Ev.isNotify] using c4
    · intro e he hcb
      rcases List.mem_cons.1 he with rfl | he
      · simp [Ev.isAsyncInferCb] at hcb
      · exact engineRun_cb_events fuel
          (⟨id, N, 0, some x, false⟩ : InferReqWrap ι) status 0 e he hcb

/-- Witness for C1 at `N = 2`: both hypotheses hold and the conclusion is
obtained from the theorem at this concrete instance. -/
theorem executeAsync_returns_after_num_iter_completions_witness :
    (1 ≤ 2) ∧
    ((∀ fuel, fuel < 2 →
      (initWrap Unit 5 2).executeAsync () (fun _ => 0) fuel = none) ∧
    (∀ fuel, 2 ≤ fuel → ∃ w tr,
      (initWrap Unit 5 2).executeAsync () (fun _ => 0) fuel = some (w, tr) ∧
      w.notified = true ∧
      tr.countP Ev.isCompletedAsync = 2 ∧
      tr.countP Ev.isAsyncInferExec = 1 ∧
      tr.countP Ev.isAsyncInferCb = 2 - 1 ∧
      tr.countP Ev.isNotify = 1 ∧
      (∀ e ∈ tr, e.isAsyncInferCb = true → e = .asyncInferCb (some ())))) :=
  ⟨by decide,
   executeAsync_returns_after_num_iter_completions Unit 5 2 () (fun _ => 0)
     (by decide)⟩

/-- **C2.** In synchronous mode with `num_iter = N` (any `N ≥ 0`),
`execute "sync"` performs exactly `N` blocking submissions in strict
sequence — the trace is precisely `N` repetitions of a submission followed
by its completion log — and the completion callback plays no role: no
callback invocation, no callback-side re-submission and no notification
occur, and the condition variable is never signalled. -/
theorem executeSync_submits_num_iter_sequentially
    (ι : Type) (id N : Nat) (x : ι) :
    ((initWrap ι id N).executeSync x).2 =
      (List.range N).flatMap
        (fun i => [Ev.syncInfer x, Ev.infoCompletedSync (i + 1)]) ∧
    ((initWrap ι id N).executeSync x).2.countP Ev.isSyncInfer = N ∧
    ((initWrap ι id N).executeSync x).2.countP Ev.isCompletedAsync = 0 ∧
    ((initWrap ι id N).executeSync x).2.countP Ev.isAsyncInferExec = 0 ∧
    ((initWrap ι id N).executeSync x).2.countP Ev.isAsyncInferCb = 0 ∧
    ((initWrap ι id N).executeSync x).2.countP Ev.isNotify = 0 ∧
    ((initWrap ι id N).executeSync x).1.notified = false := by
  obtain ⟨hs, ht⟩ := syncLoop_spec (List.range N) (initWrap ι id N) x
  obtain ⟨t1, t2, t3, t4, t5⟩ := syncTrace_counts x (List.range N)
  have hlen : (List.range N).length = N := List.length_range N
  have hnum : (initWrap ι id N).num_iter = N := rfl
  rw [InferReqWrap.executeSync, hnum]
  refine ⟨ht, ?_, ?_, ?_, ?_, ?_, ?_⟩
  · rw [ht, t1, hlen]
  · rw [ht, t2]
  · rw [ht, t3]
  · rw [ht, t4]
  · rw [ht, t5]
  · rw [hs]
    rfl

/-- **C3.** Every completion-callback invocation increments `cur_iter` by
exactly one, logs exactly one error precisely unless the userdata matches
and the status is zero (id mismatch and non-zero status are logged, never
fatal), and always proceeds to exactly one continuation action — a
re-submission or the final notification — so execution continues in every
case. -/
theorem callback_increments_and_logs (ι : Type) (w : InferReqWrap ι)
    (statusCode : Int) (userdata : Nat) :
    (w.callback statusCode userdata).1.cur_iter = w.cur_iter + 1 ∧
    (w.callback statusCode userdata).2.countP Ev.isErr =
      (if userdata = w.id ∧ statusCode = 0 then 0 else 1) ∧
    (w.callback statusCode userdata).2.countP Ev.isCompletedAsync = 1 ∧
    (w.callback statusCode userdata).2.countP Ev.isAsyncInferCb +
      (w.callback statusCode userdata).2.countP Ev.isNotify = 1 := by
  simp only [InferReqWrap.callback]
  split_ifs <;>
    simp_all [List.countP_append, List.countP_cons, Ev.isErr,
      Ev.isCompletedAsync, Ev.isAsyncInferCb, Ev.isNotify]

/-- **C4 fails as stated**: the `sync` branch of `execute` also writes
`cur_iter`, because Python's `for self.cur_iter in range(self.num_iter)`
assigns the attribute itself.  Concretely, with `num_iter = 2` the counter
is `1` after `execute "sync"` even though not a single callback invocation
occurred. -/
theorem executeSync_mutates_cur_iter_cex :
    ((initWrap Unit 0 2).executeSync ()).1.cur_iter = 1 ∧
    ((initWrap Unit 0 2).executeSync ()).2.countP Ev.isCompletedAsync = 0 ∧
    (initWrap Unit 0 2).cur_iter = 0 := by decide

/-- **C4 (amended).** `cur_iter` starts at 0 and is written in exactly two
places: the completion callback increments it by one per invocation, and
the `sync` branch of `execute` uses it as its loop variable, leaving it at
`num_iter - 1` (for a non-empty range).  The `async` branch itself never
writes it: across `execute "async"` the counter changes exactly by the
number of callback invocations. -/
theorem cur_iter_mutation_sites (ι : Type) (w : InferReqWrap ι)
    (statusCode : Int) (userdata : Nat) (x : ι) (status : Nat → Int)
    (fuel : Nat) :
    (initWrap ι userdata w.num_iter).cur_iter = 0 ∧
    (w.callback statusCode userdata).1.cur_iter = w.cur_iter + 1 ∧
    (w.executeSync x).1.cur_iter =
      (if w.num_iter = 0 then w.cur_iter else w.num_iter - 1) ∧
    (∀ r, w.executeAsync x status fuel = some r →
      r.1.cur_iter = w.cur_iter + r.2.countP Ev.isCompletedAsync) := by
  refine ⟨rfl, (callback_preserve w statusCode userdata).2.2.2, ?_, ?_⟩
  · obtain ⟨hs, _⟩ := syncLoop_spec (List.range w.num_iter) w x
    rw [InferReqWrap.executeSync, hs, range_getLastD]
  · intro r hr
    rw [InferReqWrap.executeAsync] at hr
    by_cases hnot :
        (engineRun ({ w with input := some x}) status 0 fuel).1.notified
    · rw [if_pos hnot] at hr
      obtain rfl :
          ((engineRun ({ w with input := some x}) status 0 fuel).1,
            Ev.asyncInferExec x ::
              (engineRun ({ w with input := some x}) status 0 fuel).2) = r :=
        Option.some_injective _ hr
      have hc := engineRun_cur_iter fuel ({ w with input := some x}) status 0
      simpa [List.countP_cons, Ev.isCompletedAsync] using hc
    · rw [if_neg hnot] at hr
      exact absurd hr (by simp)

/-! ## Lemmas about the batch loop of `main` -/

/-- The image-loading loop succeeds exactly when every path of the subset is
decodable. -/
lemma loadImages_ok_iff (env : Env α) (ps : List String) :
    loadImages env ps = .ok () ↔
      ∀ p ∈ ps, ∃ img, decodeOne (env.cv2Read p) (env.mimread p) = .ok img := by
  induction ps with
  | nil => simp [loadImages]
  | cons p rest ih =>
    simp only [loadImages]
    cases h : decodeOne (env.cv2Read p) (env.mimread p) with
    | error e =>
      simp only [List.mem_cons]
      constructor
      · intro hc; cases hc
      · intro hall
        obtain ⟨img, himg⟩ := hall p (Or.inl rfl)
        rw [h] at himg; cases himg
    | ok img =>
      rw [ih]
      constructor
      · intro hall q hq
        rcases List.mem_cons.1 hq with rfl | hq
        · exact ⟨img, h⟩
        · exact hall q hq
      · intro hall q hq
        exact hall q (List.mem_cons_of_mem _ hq)

/-- In the update branch the key list is unchanged. -/
lemma dictInsert_keys_of_mem (d : List (String × β)) (k : String) (v : β)
    (h : (d.any fun kv => kv.1 == k) = true) :
    (dictInsert d k v).map Prod.fst = d.map Prod.fst := by
  unfold dictInsert
  rw [if_pos h, List.map_map]
  refine List.map_congr_left ?_
  intro kv _
  by_cases hq : kv.1 = k
  · simp [Function.comp, beq_iff_eq, hq]
  · simp [Function.comp, beq_iff_eq, hq]

/-- Key set of a dict after an assignment. -/
lemma dictInsert_keys_mem (d : List (String × β)) (k : String) (v : β)
    (s : String) :
    s ∈ (dictInsert d k v).map Prod.fst ↔ s ∈ d.map Prod.fst ∨ s = k := by
  by_cases h : (d.any fun kv => kv.1 == k) = true
  · rw [dictInsert_keys_of_mem d k v h]
    have hk : k ∈ d.map Prod.fst := by
      obtain ⟨kv, hkv, hbeq⟩ := List.any_eq_true.1 h
      exact (beq_iff_eq.1 hbeq) ▸ List.mem_map_of_mem Prod.fst hkv
    constructor
    · exact Or.inl
    · rintro (hs | rfl)
      · exact hs
      · exact hk
  · unfold dictInsert
    rw [if_neg h, List.map_append]
    simp

/-- Assigning a fresh key appends the pair. -/
lemma dictInsert_fresh (d : List (String × β)) (k : String) (v : β)
    (hk : k ∉ d.map Prod.fst) :
    dictInsert d k v = d ++ [(k, v)] := by
  unfold dictInsert
  rw [if_neg]
  intro h
  obtain ⟨kv, hkv, hbeq⟩ := List.any_eq_true.1 h
  exact hk ((beq_iff_eq.1 hbeq) ▸ List.mem_map_of_mem Prod.fst hkv)

/-- A dict assignment keeps the key list duplicate-free. -/
lemma dictInsert_keys_nodup (d : List (String × β)) (k : String) (v : β)
    (hd : (d.map Prod.fst).Nodup) :
    ((dictInsert d k v).map Prod.fst).Nodup := by
  by_cases h : (d.any fun kv => kv.1 == k) = true
  · rw [dictInsert_keys_of_mem d k v h]
    exact hd
  · unfold dictInsert
    rw [if_neg h, List.map_append]
    refine List.Nodup.append hd (by simp) ?_
    intro s hs hs'
    simp only [List.map_cons, List.map_nil, List.mem_singleton] at hs'
    subst hs'
    obtain ⟨kv, hkv, hfst⟩ := List.mem_map.1 hs
    refine absurd ?_ h
    refine List.any_eq_true.2 ⟨kv, hkv, ?_⟩
    simp [beq_iff_eq, hfst]

/-- Peeling one batch off the batch count. -/
lemma numBatches_succ (batch n : Nat) (hb : 0 < batch) (hn : 0 < n) :
    numBatches n batch = numBatches (n - batch) batch + 1 := by
  unfold numBatches
  rcases Nat.le_total n batch with h | h
  · have h0 : n - batch = 0 := by omega
    rw [h0]
    have he : n + batch - 1 = (n - 1) + batch := by omega
    rw [he, Nat.add_div_right _ hb]
    have h1 : (n - 1) / batch = 0 := Nat.div_eq_of_lt (by omega)
    have h2 : (0 + batch - 1) / batch = 0 := Nat.div_eq_of_lt (by omega)
    omega
  · have he : n + batch - 1 = (n - batch + batch - 1) + batch := by omega
    rw [he, Nat.add_div_right _ hb]

/-- The slices `l[b*batch : b*batch+batch]` for `b < numBatches` concatenate
back to `l`: the batch loop covers every input exactly once. -/
lemma flatMap_chunks {σ : Type} (batch : Nat) (hb : 0 < batch) :
    ∀ (n : Nat) (l : List σ), l.length = n →
      (List.range (numBatches l.length batch)).flatMap
        (fun b => (l.drop (b * batch)).take batch) = l := by
  intro n
  induction n using Nat.strong_induction_on with
  | _ n ih =>
    intro l hl
    cases l with
    | nil =>
      have h0 : numBatches 0 batch = 0 := Nat.div_eq_of_lt (by omega)
      simp [h0]
    | cons a t =>
      have hpos : 0 < (a :: t).length := by simp
      rw [numBatches_succ batch _ hb hpos, List.range_succ_eq_map,
        List.flatMap_cons, List.flatMap_map]
      have hdrop : ∀ b : Nat,
          ((a :: t).drop (Nat.succ b * batch)).take batch =
            (((a :: t).drop batch).drop (b * batch)).take batch := by
        intro b
        rw [List.drop_drop]
        congr 2
        simp only [Nat.succ_eq_add_one]
        ring
      simp only [hdrop, Nat.zero_mul, List.drop_zero]
      have hlen2 : ((a :: t).drop batch).length = (a :: t).length - batch := by
        simp
      have ihd := ih ((a :: t).length - batch) (by omega)
        ((a :: t).drop batch) hlen2
      rw [hlen2] at ihd
      rw [ihd]
      exact List.take_append_drop _ _

/-- Success and key set of the output-accumulation loop over `enumFrom k`:
with all row indices in range it never raises, every stored key is the base
name of an indexed subset entry, and duplicate-freeness of the key list is
preserved. -/
lemma storeRows_enumFrom (strFn : α → String) (subset : List String) :
    ∀ (rows : List (List α)) (k : Nat) (json : List (String × List String)),
      k + rows.length ≤ subset.length →
      ∃ json', storeRows strFn subset (List.enumFrom k rows) json = .ok json' ∧
        (∀ s, s ∈ json'.map Prod.fst ↔
          s ∈ json.map Prod.fst ∨
            ∃ j, k ≤ j ∧ j < k + rows.length ∧
              ∃ path, subset.get? j = some path ∧ s = pathBase path) ∧
        ((json.map Prod.fst).Nodup → (json'.map Prod.fst).Nodup) := by
  intro rows
  induction rows with
  | nil =>
    intro k json _
    refine ⟨json, rfl, ?_, fun h => h⟩
    intro s
    constructor
    · exact Or.inl
    · rintro (h | ⟨j, hj1, hj2, _⟩)
      · exact h
      · simp only [List.length_nil] at hj2
        omega
  | cons probs rest ih =>
    intro k json hlen
    have hk : k < subset.length := by
      simp only [List.length_cons] at hlen; omega
    have hpath : subset.get? k = some (subset.get ⟨k, hk⟩) :=
      List.get?_eq_get hk
    obtain ⟨json', hrun, hmem, hnodup⟩ :=
      ih (k + 1)
        (dictInsert json (pathBase (subset.get ⟨k, hk⟩))
          ((probs.drop 1).map strFn))
        (by simp only [List.length_cons] at hlen; omega)
    refine ⟨json', ?_, ?_, ?_⟩
    · rw [List.enumFrom_cons]
      simp only [storeRows, hpath]
      exact hrun
    · intro s
      rw [hmem s, dictInsert_keys_mem]
      constructor
      · rintro ((hs | rfl) | ⟨j, hj1, hj2, path, hp, rfl⟩)
        · exact Or.inl hs
        · exact Or.inr ⟨k, le_refl k, by simp, subset.get ⟨k, hk⟩, hpath, rfl⟩
        · exact Or.inr ⟨j, by omega, by simp only [List.length_cons]; omega,
            path, hp, rfl⟩
      · rintro (hs | ⟨j, hj1, hj2, path, hp, rfl⟩)
        · exact Or.inl (Or.inl hs)
        · rcases Nat.eq_or_lt_of_le hj1 with rfl | hj
          · rw [hpath] at hp
            cases hp
            exact Or.inl (Or.inr rfl)
          · exact Or.inr ⟨j, by omega, by simp only [List.length_cons] at hj2; omega,
              path, hp, rfl⟩
    · intro hnd
      exact hnodup (dictInsert_keys_nodup _ _ _ hnd)

/-- With exactly one row per remaining subset entry and all base names fresh
and distinct, the output-accumulation loop appends one pair per image, in
order. -/
lemma storeRows_zip (strFn : α → String) (subset : List String) :
    ∀ (rows : List (List α)) (k : Nat) (json : List (String × List String)),
      k + rows.length = subset.length →
      ((subset.drop k).map pathBase).Nodup →
      (∀ s ∈ (subset.drop k).map pathBase, s ∉ json.map Prod.fst) →
      storeRows strFn subset (List.enumFrom k rows) json =
        .ok (json ++ ((subset.drop k).zip rows).map
          (fun pr => (pathBase pr.1, (pr.2.drop 1).map strFn))) := by
  intro rows
  induction rows with
  | nil =>
    intro k json hlen _ _
    have hdrop : subset.drop k = [] := by
      rw [List.drop_eq_nil_iff]
      simp only [List.length_nil] at hlen
      omega
    simp [storeRows, hdrop, List.zip_nil_right]
  | cons probs rest ih =>
    intro k json hlen hnd hfresh
    have hk : k < subset.length := by
      simp only [List.length_cons] at hlen; omega
    have hpath : subset.get? k = some (subset.get ⟨k, hk⟩) :=
      List.get?_eq_get hk
    have hdropk : subset.drop k = subset[k] :: subset.drop (k + 1) :=
      List.drop_eq_getElem_cons hk
    have hget : subset.get ⟨k, hk⟩ = subset[k] := rfl
    have hheadmem : pathBase subset[k] ∈ (subset.drop k).map pathBase := by
      rw [hdropk, List.map_cons]
      exact List.mem_cons_self _ _
    rw [hdropk, List.map_cons, List.nodup_cons] at hnd
    obtain ⟨hheadnotin, hndtail⟩ := hnd
    rw [List.enumFrom_cons]
    simp only [storeRows, hpath]
    rw [hget, dictInsert_fresh _ _ _ (hfresh _ hheadmem)]
    rw [ih (k + 1)
      (json ++ [(pathBase subset[k], (probs.drop 1).map strFn)])
      (by simp only [List.length_cons] at hlen; omega)
      hndtail
      (by
        intro s hs
        simp only [List.map_append, List.mem_append, List.map_cons,
          List.map_nil, List.mem_singleton, not_or]
        refine ⟨hfresh s (by rw [hdropk]; exact List.mem_cons_of_mem _ hs), ?_⟩
        intro hcontra
        rw [hcontra] at hs
        exact hheadnotin hs)]
    rw [hdropk, List.zip_cons_cons, List.map_cons, List.append_assoc]
    rfl

/-- One unfolding step of the batch loop. -/
lemma runBatches_cons (env : Env α) (b : Nat) (bs : List Nat)
    (json : List (String × List String)) (fps lat : List ℚ) :
    runBatches env (b :: bs) json fps lat =
      (match loadImages env
          ((env.inputs.drop (b * env.batch)).take env.batch) with
       | .error e => .error e
       | .ok _ =>
         match storeRows env.strFn
             ((env.inputs.drop (b * env.batch)).take env.batch)
             ((env.engineOut b).enum) json with
         | .error e => .error e
         | .ok json' =>
           runBatches env bs json'
             (fps ++ [1 / (env.infEnd b - env.infStart b)])
             (lat ++ [env.infEnd b - env.loadStart b])) := rfl

/-- A successful batch loop loaded every batch's images successfully. -/
lemma runBatches_ok_loads (env : Env α) :
    ∀ (bs : List Nat) (json : List (String × List String)) (fps lat : List ℚ)
      (out : List (String × List String) × List ℚ × List ℚ),
      runBatches env bs json fps lat = .ok out →
      ∀ b ∈ bs, loadImages env
        ((env.inputs.drop (b * env.batch)).take env.batch) = .ok () := by
  intro bs
  induction bs with
  | nil => intro json fps lat out _ b hb; cases hb
  | cons b0 rest ih =>
    intro json fps lat out h b hb
    rw [runBatches_cons] at h
    cases hld : loadImages env
        ((env.inputs.drop (b0 * env.batch)).take env.batch) with
    | error e => rw [hld] at h; cases h
    | ok u =>
      rw [hld] at h
      cases hst : storeRows env.strFn
          ((env.inputs.drop (b0 * env.batch)).take env.batch)
          ((env.engineOut b0).enum) json with
      | error e => rw [hst] at h; cases h
      | ok json' =>
        rw [hst] at h
        rcases List.mem_cons.1 hb with rfl | hb
        · cases u; exact hld
        · exact ih _ _ _ out h b hb

/-- If every batch's images decode and the engine never returns more rows
than the batch has images, the batch loop completes. -/
lemma runBatches_ok_exists (env : Env α) :
    ∀ (bs : List Nat) (json : List (String × List String)) (fps lat : List ℚ),
      (∀ b ∈ bs, loadImages env
        ((env.inputs.drop (b * env.batch)).take env.batch) = .ok ()) →
      (∀ b ∈ bs, (env.engineOut b).length ≤
        ((env.inputs.drop (b * env.batch)).take env.batch).length) →
      ∃ out, runBatches env bs json fps lat = .ok out := by
  intro bs
  induction bs with
  | nil => intro json fps lat _ _; exact ⟨_, rfl⟩
  | cons b0 rest ih =>
    intro json fps lat hload hrows
    rw [runBatches_cons, hload b0 (List.mem_cons_self b0 rest)]
    have henum : (env.engineOut b0).enum = List.enumFrom 0 (env.engineOut b0) :=
      rfl
    obtain ⟨json', hrun, _, _⟩ :=
      storeRows_enumFrom env.strFn
        ((env.inputs.drop (b0 * env.batch)).take env.batch)
        (env.engineOut b0) 0 json
        (by simpa using hrows b0 (List.mem_cons_self b0 rest))
    rw [henum, hrun]
    exact ih _ _ _ (fun b hb => hload b (List.mem_cons_of_mem b0 hb))
      (fun b hb => hrows b (List.mem_cons_of_mem b0 hb))

/-- The two timing histories of a completed batch loop: one entry per batch,
in order — the reciprocal inference duration and the load-plus-infer
duration. -/
lemma runBatches_hists (env : Env α) :
    ∀ (bs : List Nat) (json : List (String × List String)) (fps lat : List ℚ)
      (out : List (String × List String) × List ℚ × List ℚ),
      runBatches env bs json fps lat = .ok out →
      out.2.1 = fps ++ bs.map (fun b => 1 / (env.infEnd b - env.infStart b)) ∧
      out.2.2 = lat ++ bs.map (fun b => env.infEnd b - env.loadStart b) := by
  intro bs
  induction bs with
  | nil =>
    intro json fps lat out h
    cases h
    simp
  | cons b0 rest ih =>
    intro json fps lat out h
    rw [runBatches_cons] at h
    cases hld : loadImages env
        ((env.inputs.drop (b0 * env.batch)).take env.batch) with
    | error e => rw [hld] at h; cases h
    | ok u =>
      rw [hld] at h
      cases hst : storeRows env.strFn
          ((env.inputs.drop (b0 * env.batch)).take env.batch)
          ((env.engineOut b0).enum) json with
      | error e => rw [hst] at h; cases h
      | ok json' =>
        rw [hst] at h
        obtain ⟨h1, h2⟩ := ih _ _ _ out h
        rw [h1, h2]
        simp [List.map_cons]

/-- Membership in the base-name list, phrased through `get?` indexing. -/
lemma mem_map_pathBase_iff (subset : List String) (s : String) :
    s ∈ subset.map pathBase ↔
      ∃ j, j < subset.length ∧
        ∃ path, subset.get? j = some path ∧ s = pathBase path := by
  constructor
  · intro hs
    obtain ⟨path, hpmem, rfl⟩ := List.mem_map.1 hs
    obtain ⟨n, hn⟩ := List.mem_iff_get?.1 hpmem
    obtain ⟨hlt, _⟩ := List.get?_eq_some.1 hn
    exact ⟨n, hlt, path, hn, rfl⟩
  · rintro ⟨j, hj, path, hp, rfl⟩
    exact List.mem_map_of_mem _ (List.get?_mem hp)

/-- Key set of a completed batch loop: the keys accumulate exactly the base
names of all processed batch subsets, and stay duplicate-free. -/
lemma runBatches_keys (env : Env α) :
    ∀ (bs : List Nat) (json : List (String × List String)) (fps lat : List ℚ)
      (out : List (String × List String) × List ℚ × List ℚ),
      runBatches env bs json fps lat = .ok out →
      (∀ b ∈ bs, (env.engineOut b).length =
        ((env.inputs.drop (b * env.batch)).take env.batch).length) →
      (∀ s, s ∈ out.1.map Prod.fst ↔
        s ∈ json.map Prod.fst ∨
          ∃ b ∈ bs, s ∈
            ((env.inputs.drop (b * env.batch)).take env.batch).map pathBase) ∧
      ((json.map Prod.fst).Nodup → (out.1.map Prod.fst).Nodup) := by
  intro bs
  induction bs with
  | nil =>
    intro json fps lat out h _
    cases h
    exact ⟨fun s => by simp, fun h => h⟩
  | cons b0 rest ih =>
    intro json fps lat out h hrows
    rw [runBatches_cons] at h
    cases hld : loadImages env
        ((env.inputs.drop (b0 * env.batch)).take env.batch) with
    | error e => rw [hld] at h; cases h
    | ok u =>
      rw [hld] at h
      have henum : (env.engineOut b0).enum =
          List.enumFrom 0 (env.engineOut b0) := rfl
      obtain ⟨json1, hrun, hmem1, hnd1⟩ :=
        storeRows_enumFrom env.strFn
          ((env.inputs.drop (b0 * env.batch)).take env.batch)
          (env.engineOut b0) 0 json
          (by rw [hrows b0 (List.mem_cons_self b0 rest)]; omega)
      rw [henum, hrun] at h
      obtain ⟨hmem2, hnd2⟩ := ih _ _ _ out h
        (fun b hb => hrows b (List.mem_cons_of_mem b0 hb))
      refine ⟨?_, fun hnd => hnd2 (hnd1 hnd)⟩
      intro s
      rw [hmem2 s, hmem1 s]
      have hconv :
          (∃ j, 0 ≤ j ∧ j < 0 + (env.engineOut b0).length ∧
            ∃ path, ((env.inputs.drop (b0 * env.batch)).take
              env.batch).get? j = some path ∧ s = pathBase path) ↔
          s ∈ ((env.inputs.drop (b0 * env.batch)).take
            env.batch).map pathBase := by
        rw [mem_map_pathBase_iff]
        rw [hrows b0 (List.mem_cons_self b0 rest)]
        constructor
        · rintro ⟨j, _, hj, hrest⟩
          exact ⟨j, by omega, hrest⟩
        · rintro ⟨j, hj, hrest⟩
          exact ⟨j, by omega, by omega, hrest⟩
      rw [hconv]
      constructor
      · rintro ((hs | hs) | ⟨b, hb, hs⟩)
        · exact Or.inl hs
        · exact Or.inr ⟨b0, List.mem_cons_self b0 rest, hs⟩
        · exact Or.inr ⟨b, List.mem_cons_of_mem b0 hb, hs⟩
      · rintro (hs | ⟨b, hb, hs⟩)
        · exact Or.inl (Or.inl hs)
        · rcases List.mem_cons.1 hb with rfl | hb
          · exact Or.inl (Or.inr hs)
          · exact Or.inr ⟨b, hb, hs⟩

/-- The accumulated dict of a completed batch loop, written out: when the
engine returns exactly one row per image and all base names (keys already
present included) are distinct, the loop appends, batch after batch, one
`(base name, stringified tail of the row)` pair per image. -/
lemma runBatches_json (env : Env α) :
    ∀ (bs : List Nat) (json : List (String × List String)) (fps lat : List ℚ)
      (out : List (String × List String) × List ℚ × List ℚ),
      runBatches env bs json fps lat = .ok out →
      (∀ b ∈ bs, (env.engineOut b).length =
        ((env.inputs.drop (b * env.batch)).take env.batch).length) →
      (json.map Prod.fst ++ bs.flatMap (fun b =>
        ((env.inputs.drop (b * env.batch)).take env.batch).map
          pathBase)).Nodup →
      out.1 = json ++ bs.flatMap (fun b =>
        (((env.inputs.drop (b * env.batch)).take env.batch).zip
            (env.engineOut b)).map
          (fun pr => (pathBase pr.1, (pr.2.drop 1).map env.strFn))) := by
  intro bs
  induction bs with
  | nil =>
    intro json fps lat out h _ _
    cases h
    simp
  | cons b0 rest ih =>
    intro json fps lat out h hrows hnd
    rw [runBatches_cons] at h
    cases hld : loadImages env
        ((env.inputs.drop (b0 * env.batch)).take env.batch) with
    | error e => rw [hld] at h; cases h
    | ok u =>
      rw [hld] at h
      have henum : (env.engineOut b0).enum =
          List.enumFrom 0 (env.engineOut b0) := rfl
      rw [List.flatMap_cons, List.nodup_append] at hnd
      obtain ⟨hnd1, hnd2, hdisj⟩ := hnd
      rw [List.nodup_append] at hnd2
      obtain ⟨hndb0, hndrest, hdisj2⟩ := hnd2
      have hzip := storeRows_zip env.strFn
        ((env.inputs.drop (b0 * env.batch)).take env.batch)
        (env.engineOut b0) 0 json
        (by rw [hrows b0 (List.mem_cons_self b0 rest)]; omega)
        (by simpa using hndb0)
        (by
          intro s hs hsin
          simp only [List.drop_zero] at hs
          exact hdisj hsin (by
            rw [List.mem_append]
            exact Or.inl hs))
      simp only [List.drop_zero] at hzip
      rw [henum, hzip] at h
      have hkeys1 : (json ++
          (((env.inputs.drop (b0 * env.batch)).take env.batch).zip
            (env.engineOut b0)).map
            (fun pr => (pathBase pr.1, (pr.2.drop 1).map env.strFn))).map
          Prod.fst =
          json.map Prod.fst ++
            ((env.inputs.drop (b0 * env.batch)).take env.batch).map
              pathBase := by
        rw [List.map_append, List.map_map]
        congr 1
        have : (Prod.fst ∘ fun pr : String × List α =>
            (pathBase pr.1, (pr.2.drop 1).map env.strFn)) =
            (fun pr : String × List α => pathBase pr.1) := rfl
        rw [this]
        have hmapfst : (((env.inputs.drop (b0 * env.batch)).take
            env.batch).zip (env.engineOut b0)).map
            (fun pr : String × List α => pathBase pr.1) =
            ((((env.inputs.drop (b0 * env.batch)).take env.batch).zip
              (env.engineOut b0)).map Prod.fst).map pathBase := by
          rw [List.map_map]
          rfl
        rw [hmapfst, List.map_fst_zip _ _
          (by rw [hrows b0 (List.mem_cons_self b0 rest)])]
      have hrec := ih _ _ _ out h
        (fun b hb => hrows b (List.mem_cons_of_mem b0 hb))
        (by
          rw [hkeys1, List.append_assoc]
          exact List.nodup_append.2
            ⟨hnd1, List.nodup_append.2 ⟨hndb0, hndrest, hdisj2⟩, hdisj⟩)
      rw [hrec, List.flatMap_cons, List.append_assoc]

/-- Inversion of a normal run: a `done` outcome pins down every check on the
way — no unsupported-layer exit, the single-input assertion passed, a
non-zero batch, a completed batch loop producing exactly the carried
histories and dict, and the two printed averages. -/
lemma mainRun_done (env : Env α) (json : List (String × List String))
    (fps lat : List ℚ) (aF aL : ℚ)
    (h : mainRun env = .done json fps lat aF aL) :
    ¬(strContains env.device "CPU" ∧
        env.netLayers.filter (fun l => !(env.queryCPU.contains l)) ≠ []) ∧
    env.netInputsCount = 1 ∧ env.batch ≠ 0 ∧
    runBatches env (List.range (numBatches env.inputs.length env.batch))
      [] [] [] = .ok (json, fps, lat) ∧
    fps.length ≠ 0 ∧
    aF = fps.sum / (fps.length : ℚ) ∧
    aL = lat.sum / (lat.length : ℚ) * 1000 := by
  simp only [mainRun] at h
  by_cases h1 : (strContains env.device "CPU" ∧
      env.netLayers.filter (fun l => !(env.queryCPU.contains l)) ≠ [])
  · rw [if_pos h1] at h; cases h
  · rw [if_neg h1] at h
    by_cases h2 : env.netInputsCount ≠ 1
    · rw [if_pos h2] at h; cases h
    · rw [if_neg h2] at h
      by_cases h3 : env.batch = 0
      · rw [if_pos h3] at h; cases h
      · rw [if_neg h3] at h
        cases hr : runBatches env
            (List.range (numBatches env.inputs.length env.batch)) [] [] [] with
        | error e => rw [hr] at h; cases h
        | ok out =>
          obtain ⟨j2, f2, l2⟩ := out
          rw [hr] at h
          simp only at h
          by_cases h4 : f2.length = 0
          · rw [if_pos h4] at h; cases h
          · rw [if_neg h4] at h
            cases h
            exact ⟨h1, by omega, h3, rfl, h4, rfl, rfl⟩

/-- In an association list with duplicate-free keys, membership determines
the result of `lookup`. -/
lemma lookup_of_mem_nodup :
    ∀ (l : List (String × β)) (k : String) (v : β),
      (l.map Prod.fst).Nodup → (k, v) ∈ l → l.lookup k = some v := by
  intro l
  induction l with
  | nil => intro k v _ hm; cases hm
  | cons kv rest ih =>
    intro k v hnd hm
    obtain ⟨k0, v0⟩ := kv
    rw [List.map_cons, List.nodup_cons] at hnd
    rcases List.mem_cons.1 hm with heq | hmem
    · injection heq with h1 h2
      subst h1
      subst h2
      rw [List.lookup_cons, beq_self_eq_true]
    · by_cases hk : k = k0
      · subst hk
        exact absurd (List.mem_map_of_mem Prod.fst hmem) hnd.1
      · rw [List.lookup_cons, beq_eq_false_iff_ne.2 hk]
        exact ih k v hnd.2 hmem

/-- The batch ordinal of input index `j` is a valid batch ordinal. -/
lemma div_lt_numBatches (batch n j : Nat) (hb : 0 < batch) (hj : j < n) :
    j / batch < numBatches n batch := by
  have h1 : j / batch ≤ (n - 1) / batch :=
    Nat.div_le_div_right (by omega)
  have h2 : numBatches n batch = (n - 1) / batch + 1 := by
    unfold numBatches
    have he : n + batch - 1 = (n - 1) + batch := by omega
    rw [he, Nat.add_div_right _ hb]
  omega

/-- With at least one input there is at least one batch. -/
lemma numBatches_pos (batch n : Nat) (hb : 0 < batch) (hn : 0 < n) :
    0 < numBatches n batch := by
  have h := (Nat.one_le_div_iff hb).2 (show batch ≤ n + batch - 1 by omega)
  unfold numBatches
  omega

/-- The Boolean `unsupportedLayerSit` decides the condition of the layer
check's `if`. -/
lemma unsupportedLayerSit_iff (env : Env α) :
    unsupportedLayerSit env = true ↔
      (strContains env.device "CPU" ∧
        env.netLayers.filter (fun l => !(env.queryCPU.contains l)) ≠ []) := by
  unfold unsupportedLayerSit
  rw [Bool.and_eq_true, Bool.not_eq_true']
  constructor
  · rintro ⟨h1, h2⟩
    exact ⟨h1, by simpa [List.isEmpty_iff] using h2⟩
  · rintro ⟨h1, h2⟩
    exact ⟨h1, by simpa [List.isEmpty_iff] using h2⟩

/-- **C6.** For every input list, a completed run stores exactly one key per
distinct base filename: the key set of the output JSON equals the set of
base filenames of the input paths, with no duplicate keys.  (The engine is
assumed to return one output row per image of each batch, the contract the
loop relies on.) -/
theorem output_keys_eq_input_basenames (env : Env α)
    (json : List (String × List String))
    (hrows : ∀ b, b < numBatches env.inputs.length env.batch →
      (env.engineOut b).length =
        ((env.inputs.drop (b * env.batch)).take env.batch).length)
    (h : outcomeJson (mainRun env) = some json) :
    (json.map Prod.fst).Nodup ∧
    (∀ s, s ∈ json.map Prod.fst ↔ s ∈ env.inputs.map pathBase) := by
  obtain ⟨fps, lat, aF, aL, hdone⟩ :
      ∃ fps lat aF aL, mainRun env = .done json fps lat aF aL := by
    cases hout : mainRun env with
    | sysExit c => rw [hout] at h; cases h
    | uncaught m => rw [hout] at h; cases h
    | done j f l a b =>
      rw [hout] at h
      simp only [outcomeJson, Option.some.injEq] at h
      exact ⟨f, l, a, b, by rw [h]⟩
  obtain ⟨-, -, hb, hrun, -, -, -⟩ := mainRun_done env json fps lat aF aL hdone
  have hb' : 0 < env.batch := Nat.pos_of_ne_zero hb
  obtain ⟨hmem, hnd⟩ := runBatches_keys env _ [] [] [] (json, fps, lat) hrun
    (fun b hbm => hrows b (List.mem_range.1 hbm))
  have hchunks := flatMap_chunks env.batch hb' env.inputs.length env.inputs rfl
  refine ⟨hnd (by simp), ?_⟩
  intro s
  rw [hmem s]
  simp only [List.map_nil, List.not_mem_nil, false_or]
  constructor
  · rintro ⟨b, hbm, hs⟩
    obtain ⟨p, hp, rfl⟩ := List.mem_map.1 hs
    refine List.mem_map_of_mem _ ?_
    rw [← hchunks]
    exact List.mem_flatMap.2 ⟨b, hbm, hp⟩
  · intro hs
    obtain ⟨p, hp, rfl⟩ := List.mem_map.1 hs
    rw [← hchunks] at hp
    obtain ⟨b, hbm, hpb⟩ := List.mem_flatMap.1 hp
    exact ⟨b, hbm, List.mem_map_of_mem _ hpb⟩

/-- Witness for C6 on the concrete three-image, batch-2 environment. -/
theorem output_keys_eq_input_basenames_witness :
    (∀ b, b < numBatches envOk.inputs.length envOk.batch →
      (envOk.engineOut b).length =
        ((envOk.inputs.drop (b * envOk.batch)).take envOk.batch).length) ∧
    outcomeJson (mainRun envOk) = some
      [("cat.jpg", ["1", "2"]), ("dog.jpg", ["3", "4"]),
        ("fish.gif", ["5", "6"])] ∧
    (([("cat.jpg", ["1", "2"]), ("dog.jpg", ["3", "4"]),
        ("fish.gif", ["5", "6"])].map
          (Prod.fst (β := List String))).Nodup ∧
      (∀ s, s ∈ [("cat.jpg", ["1", "2"]), ("dog.jpg", ["3", "4"]),
          ("fish.gif", ["5", "6"])].map Prod.fst ↔
        s ∈ envOk.inputs.map pathBase)) :=
  ⟨by decide, by decide,
   output_keys_eq_input_basenames envOk _ (by decide) (by decide)⟩

/-- **C7.** For every image (with distinct base filenames, per-image engine
rows, and non-empty raw output vectors), the value stored in the output JSON
under the image's base filename is the ordered list of the raw row's entries
stringified with the entry at class index 0 removed, so it has exactly one
element fewer than the raw per-image output vector. -/
theorem output_values_are_stringified_tails (env : Env α)
    (json : List (String × List String))
    (hrows : ∀ b, b < numBatches env.inputs.length env.batch →
      (env.engineOut b).length =
        ((env.inputs.drop (b * env.batch)).take env.batch).length)
    (hnodup : (env.inputs.map pathBase).Nodup)
    (hne : ∀ b, b < numBatches env.inputs.length env.batch →
      ∀ probs ∈ env.engineOut b, probs ≠ [])
    (h : outcomeJson (mainRun env) = some json) :
    ∀ j, ∀ hj : j < env.inputs.length, ∃ probs,
      (env.engineOut (j / env.batch)).get? (j % env.batch) = some probs ∧
      json.lookup (pathBase (env.inputs.get ⟨j, hj⟩)) =
        some ((probs.drop 1).map env.strFn) ∧
      ((probs.drop 1).map env.strFn).length + 1 = probs.length := by
  obtain ⟨fps, lat, aF, aL, hdone⟩ :
      ∃ fps lat aF aL, mainRun env = .done json fps lat aF aL := by
    cases hout : mainRun env with
    | sysExit c => rw [hout] at h; cases h
    | uncaught m => rw [hout] at h; cases h
    | done j f l a b =>
      rw [hout] at h
      simp only [outcomeJson, Option.some.injEq] at h
      exact ⟨f, l, a, b, by rw [h]⟩
  obtain ⟨-, -, hb, hrun, -, -, -⟩ := mainRun_done env json fps lat aF aL hdone
  have hb' : 0 < env.batch := Nat.pos_of_ne_zero hb
  have hnall : ((([] : List (String × List String)).map Prod.fst) ++
      (List.range (numBatches env.inputs.length env.batch)).flatMap
        (fun b => ((env.inputs.drop (b * env.batch)).take env.batch).map
          pathBase)).Nodup := by
    simp only [List.map_nil, List.nil_append]
    rw [← List.map_flatMap pathBase]
    rw [flatMap_chunks env.batch hb' env.inputs.length env.inputs rfl]
    exact hnodup
  have hjson := runBatches_json env _ [] [] [] (json, fps, lat) hrun
    (fun b hbm => hrows b (List.mem_range.1 hbm)) hnall
  simp only [List.nil_append] at hjson
  obtain ⟨-, hndk⟩ := runBatches_keys env _ [] [] [] (json, fps, lat) hrun
    (fun b hbm => hrows b (List.mem_range.1 hbm))
  have hkeysnd := hndk (by simp)
  intro j hj
  have hbatch : j / env.batch < numBatches env.inputs.length env.batch :=
    div_lt_numBatches env.batch env.inputs.length j hb' hj
  have hrlt : j % env.batch < env.batch := Nat.mod_lt _ hb'
  have hjand : (j / env.batch) * env.batch + j % env.batch = j := by
    rw [Nat.mul_comm]
    exact Nat.div_add_mod j env.batch
  have hrsub : j % env.batch <
      ((env.inputs.drop ((j / env.batch) * env.batch)).take
        env.batch).length := by
    simp only [List.length_take, List.length_drop]
    omega
  have hrrow : j % env.batch < (env.engineOut (j / env.batch)).length := by
    rw [hrows (j / env.batch) hbatch]
    exact hrsub
  have hsubget :
      ((env.inputs.drop ((j / env.batch) * env.batch)).take
        env.batch).get ⟨j % env.batch, hrsub⟩ = env.inputs.get ⟨j, hj⟩ := by
    rw [List.get_eq_getElem, List.get_eq_getElem]
    rw [List.getElem_take, List.getElem_drop]
    congr 1
  refine ⟨(env.engineOut (j / env.batch)).get ⟨j % env.batch, hrrow⟩,
    List.get?_eq_get hrrow, ?_, ?_⟩
  · have hz : j % env.batch <
        (((env.inputs.drop ((j / env.batch) * env.batch)).take
          env.batch).zip (env.engineOut (j / env.batch))).length := by
      rw [List.length_zip]
      omega
    have hzel : (((env.inputs.drop ((j / env.batch) * env.batch)).take
          env.batch).zip (env.engineOut (j / env.batch))).get
            ⟨j % env.batch, hz⟩ =
        (((env.inputs.drop ((j / env.batch) * env.batch)).take
          env.batch).get ⟨j % env.batch, hrsub⟩,
         (env.engineOut (j / env.batch)).get ⟨j % env.batch, hrrow⟩) := by
      rw [List.get_eq_getElem, List.get_eq_getElem, List.get_eq_getElem]
      exact List.getElem_zip
    have hmemz := List.get_mem
      (((env.inputs.drop ((j / env.batch) * env.batch)).take
        env.batch).zip (env.engineOut (j / env.batch))) (j % env.batch) hz
    rw [hzel] at hmemz
    have hmemmap := List.mem_map_of_mem
      (fun pr : String × List α =>
        (pathBase pr.1, (pr.2.drop 1).map env.strFn)) hmemz
    have hmemjson :
        (pathBase (env.inputs.get ⟨j, hj⟩),
          (((env.engineOut (j / env.batch)).get
            ⟨j % env.batch, hrrow⟩).drop 1).map env.strFn) ∈ json := by
      rw [hjson]
      refine List.mem_flatMap.2 ⟨j / env.batch, List.mem_range.2 hbatch, ?_⟩
      rw [← hsubget]
      exact hmemmap
    exact lookup_of_mem_nodup json _ _ hkeysnd hmemjson
  · have hprobne :
        (env.engineOut (j / env.batch)).get ⟨j % env.batch, hrrow⟩ ≠ [] :=
      hne (j / env.batch) hbatch _
        (List.get_mem (env.engineOut (j / env.batch)) (j % env.batch) hrrow)
    have hpos : 0 <
        ((env.engineOut (j / env.batch)).get ⟨j % env.batch, hrrow⟩).length :=
      List.length_pos.2 hprobne
    simp only [List.length_map, List.length_drop]
    omega

/-- Witness for C7 on the concrete three-image, batch-2 environment. -/
theorem output_values_are_stringified_tails_witness :
    (∀ b, b < numBatches envOk.inputs.length envOk.batch →
      (envOk.engineOut b).length =
        ((envOk.inputs.drop (b * envOk.batch)).take envOk.batch).length) ∧
    (envOk.inputs.map pathBase).Nodup ∧
    (∀ b, b < numBatches envOk.inputs.length envOk.batch →
      ∀ probs ∈ envOk.engineOut b, probs ≠ []) ∧
    outcomeJson (mainRun envOk) = some
      [("cat.jpg", ["1", "2"]), ("dog.jpg", ["3", "4"]),
        ("fish.gif", ["5", "6"])] ∧
    (∀ j, ∀ hj : j < envOk.inputs.length, ∃ probs,
      (envOk.engineOut (j / envOk.batch)).get? (j % envOk.batch) =
        some probs ∧
      [("cat.jpg", ["1", "2"]), ("dog.jpg", ["3", "4"]),
        ("fish.gif", ["5", "6"])].lookup
          (pathBase (envOk.inputs.get ⟨j, hj⟩)) =
        some ((probs.drop 1).map envOk.strFn) ∧
      ((probs.drop 1).map envOk.strFn).length + 1 = probs.length) :=
  ⟨by decide, by decide, by decide, by decide,
   output_values_are_stringified_tails envOk
     [("cat.jpg", ["1", "2"]), ("dog.jpg", ["3", "4"]),
       ("fish.gif", ["5", "6"])]
     (by decide) (by decide) (by decide) (by decide)⟩

/-- **C8.** The printed average FPS is the arithmetic mean, over batches, of
the reciprocal inference durations, and the printed average latency is the
arithmetic mean, over batches, of the load-plus-inference durations, in
milliseconds (modelled in exact rational arithmetic). -/
theorem printed_averages_are_means (env : Env α)
    (json : List (String × List String)) (fps lat : List ℚ) (aF aL : ℚ)
    (h : mainRun env = .done json fps lat aF aL) :
    aF = arithMean
      ((List.range (numBatches env.inputs.length env.batch)).map
        (fun b => 1 / (env.infEnd b - env.infStart b))) ∧
    aL = arithMean
      ((List.range (numBatches env.inputs.length env.batch)).map
        (fun b => env.infEnd b - env.loadStart b)) * 1000 := by
  obtain ⟨-, -, -, hrun, -, hF, hL⟩ := mainRun_done env json fps lat aF aL h
  obtain ⟨hf, hl⟩ := runBatches_hists env _ [] [] [] (json, fps, lat) hrun
  simp only [List.nil_append] at hf hl
  rw [hF, hL, hf, hl]
  exact ⟨rfl, rfl⟩

/-- Witness for C8 on the concrete one-image environment with unit timings. -/
theorem printed_averages_are_means_witness :
    mainRun envTime = .done [(pathBase "x.png", [toString 2])] [1] [1] 1 1000 ∧
    ((1 : ℚ) = arithMean
      ((List.range (numBatches envTime.inputs.length envTime.batch)).map
        (fun b => 1 / (envTime.infEnd b - envTime.infStart b))) ∧
    (1000 : ℚ) = arithMean
      ((List.range (numBatches envTime.inputs.length envTime.batch)).map
        (fun b => envTime.infEnd b - envTime.loadStart b)) * 1000) :=
  ⟨by simp [mainRun, runBatches, loadImages, decodeOne, storeRows, dictInsert,
      numBatches, envTime, strContains, containsSeq, startsWithChars,
      List.range_succ, List.range_zero, initWrap],
   printed_averages_are_means envTime [(pathBase "x.png", [toString 2])]
     [1] [1] 1 1000
     (by simp [mainRun, runBatches, loadImages, decodeOne, storeRows,
       dictInsert, numBatches, envTime, strContains, containsSeq,
       startsWithChars, List.range_succ, List.range_zero, initWrap])⟩

/-- **C9.** Image decoding: a path the primary codec reads is used as is;
when the primary codec fails, the GIF-capable fallback decoder is used, and
only the first frame restricted to its first three channels enters the
batch, a grayscale frame stack being first replicated to three channels;
when both decoders fail, the loop aborts with the fatal assertion failure.
-/
theorem decode_gif_fallback (α : Type) (primary : Option (Image α))
    (fallback : Option (GifFrames α)) :
    (∀ img, primary = some img → decodeOne primary fallback = .ok img) ∧
    (primary = none → ∀ f fs, fallback = some (.color (f :: fs)) →
      decodeOne primary fallback =
        .ok (f.map (fun row => row.map (fun px => px.take 3)))) ∧
    (primary = none → ∀ f fs, fallback = some (.gray (f :: fs)) →
      decodeOne primary fallback =
        .ok (f.map (fun row => row.map (fun x => [x, x, x])))) ∧
    (primary = none → fallback = none →
      decodeOne primary fallback =
        .error "AssertionError: Neither cv2 nor imageio can read this file") := by
  refine ⟨?_, ?_, ?_, ?_⟩
  · rintro img rfl
    rfl
  · rintro rfl f fs rfl
    rfl
  · rintro rfl f fs rfl
    simp [decodeOne, gifFirstFrame, List.map_map, Function.comp,
      List.take_succ_cons, List.take_nil]
  · rintro rfl rfl
    rfl

/-- **C10.** The output JSON (indeed the whole observable outcome) does not
depend on the `--labels` and `--number_top` arguments: two runs differing
only in these two arguments produce identical outcomes.  `number_top` is
parsed but never used; the labels file is parsed into `labels_map` inside
the batch loop but `labels_map` never flows into the stored results. -/
theorem output_independent_of_labels_and_number_top (env : Env α)
    (l1 l2 : Option (List String)) (n1 n2 : Nat) :
    mainRun { env with labels := l1, numberTop := n1 } =
      mainRun { env with labels := l2, numberTop := n2 } := by
  obtain ⟨d, nl, q, ni, inp, b, cv, mim, eng, str, ls, is2, ie, lab, nt⟩ := env
  show mainRun ⟨d, nl, q, ni, inp, b, cv, mim, eng, str, ls, is2, ie, l1, n1⟩ =
    mainRun ⟨d, nl, q, ni, inp, b, cv, mim, eng, str, ls, is2, ie, l2, n2⟩
  have hload : ∀ ps,
      loadImages
        ⟨d, nl, q, ni, inp, b, cv, mim, eng, str, ls, is2, ie, l1, n1⟩ ps =
      loadImages
        ⟨d, nl, q, ni, inp, b, cv, mim, eng, str, ls, is2, ie, l2, n2⟩ ps := by
    intro ps
    induction ps with
    | nil => rfl
    | cons p rest ih =>
      simp only [loadImages]
      rw [ih]
  have hrun : ∀ bs json fps lat,
      runBatches
        ⟨d, nl, q, ni, inp, b, cv, mim, eng, str, ls, is2, ie, l1, n1⟩
        bs json fps lat =
      runBatches
        ⟨d, nl, q, ni, inp, b, cv, mim, eng, str, ls, is2, ie, l2, n2⟩
        bs json fps lat := by
    intro bs
    induction bs with
    | nil => intro json fps lat; rfl
    | cons b0 rest ih =>
      intro json fps lat
      rw [runBatches_cons, runBatches_cons]
      simp only
      rw [hload]
      simp only [ih]
  simp only [mainRun]
  simp only [hrun]

/-- **C5 fails as stated**: the claim says exit code 1 occurs exactly on
unsupported layers or an invalid execution mode.  But a run whose only
problem is an image no decoder reads (no unsupported layer, and `main`
hard-codes the valid mode `"sync"`) dies with an `AssertionError`, which
CPython turns into exit code 1 — a third situation. -/
theorem exit_one_beyond_claimed_situations_cex :
    mainRun envBadImage =
      .uncaught "AssertionError: Neither cv2 nor imageio can read this file" ∧
    exitCode (mainRun envBadImage) = 1 ∧
    unsupportedLayerSit envBadImage = false := by decide

/-- **C5 (amended).** Exit codes: the unsupported-layer check exits with
code 1 via `sys.exit`; `execute` with a mode other than `"sync"` / `"async"`
exits with code 1 via `sys.exit` (unreachable from `main`, which passes
`"sync"`); in addition the process terminates with exit code 1 as an
uncaught exception when the single-input assertion fails (a multi-input
network), when the batch size is 0 (`ValueError` from `range`), or when an
input image is read by neither decoder (`AssertionError`); and when none of
these occur — no unsupported layers, a single-input network, a positive
batch size, a non-empty input list, every image decodable, and the engine
returning at most one output row per batched image — the process exits with
code 0. -/
theorem exit_code_characterization (env : Env α) (ι : Type)
    (w : InferReqWrap ι) (m : String) (x : ι) (status : Nat → Int)
    (fuel : Nat) (hne : env.inputs ≠ []) :
    (unsupportedLayerSit env = true → mainRun env = .sysExit 1) ∧
    (m ≠ "async" → m ≠ "sync" →
      w.execute m x status fuel = some (.error 1)) ∧
    (unsupportedLayerSit env = false → env.netInputsCount ≠ 1 →
      exitCode (mainRun env) = 1) ∧
    (unsupportedLayerSit env = false → env.batch = 0 →
      exitCode (mainRun env) = 1) ∧
    ((∃ p ∈ env.inputs, env.cv2Read p = none ∧ env.mimread p = none) →
      unsupportedLayerSit env = false → exitCode (mainRun env) = 1) ∧
    (successAssumptions env → 0 < env.batch →
      exitCode (mainRun env) = 0) := by
  refine ⟨?_, ?_, ?_, ?_, ?_, ?_⟩
  · intro hsit
    simp only [mainRun]
    rw [if_pos ((unsupportedLayerSit_iff env).1 hsit)]
  · intro hm1 hm2
    simp only [InferReqWrap.execute]
    rw [if_neg hm1, if_neg hm2]
  · intro hsit h2
    have hsit' : ¬(strContains env.device "CPU" ∧
        env.netLayers.filter (fun l => !(env.queryCPU.contains l)) ≠ []) := by
      intro hc
      rw [(unsupportedLayerSit_iff env).2 hc] at hsit
      cases hsit
    simp only [mainRun]
    rw [if_neg hsit', if_pos h2]
    rfl
  · intro hsit h0
    have hsit' : ¬(strContains env.device "CPU" ∧
        env.netLayers.filter (fun l => !(env.queryCPU.contains l)) ≠ []) := by
      intro hc
      rw [(unsupportedLayerSit_iff env).2 hc] at hsit
      cases hsit
    simp only [mainRun]
    rw [if_neg hsit']
    by_cases h2 : env.netInputsCount ≠ 1
    · rw [if_pos h2]
      rfl
    · rw [if_neg h2, if_pos h0]
      rfl
  · intro hbad hsit
    have hsit' : ¬(strContains env.device "CPU" ∧
        env.netLayers.filter (fun l => !(env.queryCPU.contains l)) ≠ []) := by
      intro hc
      rw [(unsupportedLayerSit_iff env).2 hc] at hsit
      cases hsit
    simp only [mainRun]
    rw [if_neg hsit']
    by_cases h2 : env.netInputsCount ≠ 1
    · rw [if_pos h2]
      rfl
    · rw [if_neg h2]
      by_cases h3 : env.batch = 0
      · rw [if_pos h3]
        rfl
      · rw [if_neg h3]
        cases hr : runBatches env
            (List.range (numBatches env.inputs.length env.batch))
            [] [] [] with
        | error e => rfl
        | ok out =>
          exfalso
          obtain ⟨p, hp, hcv, hmim⟩ := hbad
          have hchunks := flatMap_chunks env.batch (Nat.pos_of_ne_zero h3)
            env.inputs.length env.inputs rfl
          rw [← hchunks] at hp
          obtain ⟨b, hbm, hpb⟩ := List.mem_flatMap.1 hp
          have hload := runBatches_ok_loads env _ [] [] [] out hr b hbm
          obtain ⟨img, himg⟩ := (loadImages_ok_iff env _).1 hload p hpb
          rw [hcv, hmim] at himg
          cases himg
  · intro hsucc hb
    obtain ⟨hsit, hni, hdec, hrows⟩ := hsucc
    have hsit' : ¬(strContains env.device "CPU" ∧
        env.netLayers.filter (fun l => !(env.queryCPU.contains l)) ≠ []) := by
      intro hc
      rw [(unsupportedLayerSit_iff env).2 hc] at hsit
      cases hsit
    simp only [mainRun]
    rw [if_neg hsit']
    rw [if_neg (show ¬env.netInputsCount ≠ 1 by omega)]
    rw [if_neg (show ¬env.batch = 0 by omega)]
    have hloadok : ∀ b ∈ List.range (numBatches env.inputs.length env.batch),
        loadImages env
          ((env.inputs.drop (b * env.batch)).take env.batch) = .ok () := by
      intro b hbm
      rw [loadImages_ok_iff]
      intro p hp
      apply hdec p
      have hchunks := flatMap_chunks env.batch hb env.inputs.length
        env.inputs rfl
      rw [← hchunks]
      exact List.mem_flatMap.2 ⟨b, hbm, hp⟩
    obtain ⟨out, hout⟩ := runBatches_ok_exists env _ [] [] [] hloadok
      (fun b hbm => hrows b (List.mem_range.1 hbm))
    obtain ⟨j2, f2, l2⟩ := out
    obtain ⟨hf2, -⟩ := runBatches_hists env _ [] [] [] (j2, f2, l2) hout
    simp only at hf2
    have hlen : f2.length = numBatches env.inputs.length env.batch := by
      rw [hf2]
      simp
    have hpos : 0 < numBatches env.inputs.length env.batch :=
      numBatches_pos env.batch env.inputs.length hb
        (List.length_pos.2 hne)
    rw [hout]
    simp only
    rw [if_neg (by omega)]
    rfl

/-- Witness for the amended C5 at the concrete successful environment and a
concrete invalid mode string. -/
theorem exit_code_characterization_witness :
    envTime.inputs ≠ [] ∧
    ((unsupportedLayerSit envTime = true → mainRun envTime = .sysExit 1) ∧
    ("turbo" ≠ "async" → "turbo" ≠ "sync" →
      (initWrap Unit 0 1).execute "turbo" () (fun _ => 0) 0 =
        some (.error 1)) ∧
    (unsupportedLayerSit envTime = false → envTime.netInputsCount ≠ 1 →
      exitCode (mainRun envTime) = 1) ∧
    (unsupportedLayerSit envTime = false → envTime.batch = 0 →
      exitCode (mainRun envTime) = 1) ∧
    ((∃ p ∈ envTime.inputs,
        envTime.cv2Read p = none ∧ envTime.mimread p = none) →
      unsupportedLayerSit envTime = false →
        exitCode (mainRun envTime) = 1) ∧
    (successAssumptions envTime → 0 < envTime.batch →
      exitCode (mainRun envTime) = 0)) :=
  ⟨by decide,
   exit_code_characterization envTime Unit (initWrap Unit 0 1) "turbo" ()
     (fun _ => 0) 0 (by decide)⟩

end ClassificationSample
